import Mathlib

/-!
# Verification of the Ostium position-watcher bot (`src/main.py`)

A shallow embedding of the bot's core logic, translated from the Python
source, together with theorems settling the specification's claims.

Conventions of the embedding:

* Raw fixed-point integer fields (collateral, notional: 6 decimals; prices
  and fee components: 18 decimals; leverage: 2 decimals) are `Int`.
* Python `float` arithmetic on scaled values is idealised as exact rational
  arithmetic (`ℚ`); `f"{v:,.2f}"` display formatting is modelled as exact
  decimal rounding (half to even) followed by digit grouping.
* A field whose `float(...)` conversion would raise is modelled as an
  `Option Int` that is `none`; an absent field read with `.get(k, 0)`
  converts to `0`, i.e. `some 0`.
* Python dicts (insertion ordered) are association lists
  `List (String × α)`; lookup finds the first matching key, assignment
  overwrites in place or appends.
-/

namespace OstiumBot

/-! ## Decimal scaler (spec §4.1; `main.py` uses `raw / 1e6`, `raw / 1e18`) -/

/-- Scale a raw 6-decimal fixed point integer (USDC units): `raw / 1e6`. -/
def scale6 (raw : Int) : ℚ := (raw : ℚ) / 1000000

/-- Scale a raw 18-decimal fixed point integer: `raw / 1e18`. -/
def scale18 (raw : Int) : ℚ := (raw : ℚ) / 1000000000000000000

/-! ## Display formatting: the model of Python's `f"{v:,.2f}"` -/

/-- Floor of a rational, computed on the normalised numerator/denominator. -/
def ratFloor (q : ℚ) : ℤ := Int.fdiv q.num (q.den : ℤ)

/-- Round a rational to the nearest integer, ties to even (the rounding of
Python's float formatting, restricted to the exact values the claims use). -/
def rhe (q : ℚ) : ℤ :=
  if q - (ratFloor q : ℚ) < 1/2 then ratFloor q
  else if 1/2 < q - (ratFloor q : ℚ) then ratFloor q + 1
  else if ratFloor q % 2 = 0 then ratFloor q else ratFloor q + 1

/-- Insert a comma after every third digit of a reversed digit list
(the thousands grouping of `f"{v:,.2f}"`). -/
def commasRev : List Char → List Char
  | a :: b :: c :: d :: rest => a :: b :: c :: ',' :: commasRev (d :: rest)
  | l => l

/-- Render a natural number with thousands separators, e.g. `1234567 ↦ "1,234,567"`. -/
def formatNatGrouped (n : Nat) : String :=
  ⟨(commasRev (Nat.toDigits 10 n).reverse).reverse⟩

/-- Render `n < 100` as exactly two digits (the `.2f` fractional part). -/
def twoDigits (n : Nat) : String :=
  ⟨[Char.ofNat (48 + n / 10 % 10), Char.ofNat (48 + n % 10)]⟩

/-- The model of Python's `f"{q:,.2f}"`: round to hundredths, group the
integer part in threes, always show two fractional digits. -/
def format2f (q : ℚ) : String :=
  if rhe (q * 100) < 0 then
    "-" ++ formatNatGrouped ((-(rhe (q * 100))).toNat / 100) ++ "."
      ++ twoDigits ((-(rhe (q * 100))).toNat % 100)
  else
    formatNatGrouped ((rhe (q * 100)).toNat / 100) ++ "."
      ++ twoDigits ((rhe (q * 100)).toNat % 100)

/-- `main.py` lines 580-584: the rendered collateral change of a TRADE UPDATE
message, `f"({sign}{diff_val:,.2f} USDC)"` where `diff_val` is the raw
collateral delta scaled by 6 decimals and `sign` is `"+"` exactly when the
delta is positive. -/
def modDiffStr (newCollateral oldCollateral : Int) : String :=
  "(" ++ (if 0 < scale6 (newCollateral - oldCollateral) then "+" else "")
    ++ format2f (scale6 (newCollateral - oldCollateral)) ++ " USDC)"

/-! ## Fee structure (`main.py` lines 67-99) -/

/-- The static fee table `OPENING_FEES` (basis points), exactly as in the
source: specific pairs first, then the per asset class default rates. -/
def OPENING_FEES : List (String × Nat) :=
  [("XAU/USD", 3), ("CL/USD", 10), ("HG/USD", 15), ("XAG/USD", 15),
   ("XPT/USD", 20), ("XPD/USD", 20),
   ("USD/MXN", 5),
   ("_CRYPTO_", 10), ("_INDICES_", 5), ("_FOREX_", 3), ("_STOCKS_", 5)]

/-- First value bound to `k` in an association list (Python dict lookup). -/
def tableLookup (l : List (String × Nat)) (k : String) : Option Nat :=
  match l with
  | [] => none
  | (k2, v) :: rest => if k2 = k then some v else tableLookup rest k

/-- `get_opening_fee_bps` (lines 84-92): the table entry for the exact pair
symbol when present, otherwise always `OPENING_FEES['_CRYPTO_']` — the
source never classifies the pair by asset class. -/
def get_opening_fee_bps (pair_symbol : String) : Nat :=
  match tableLookup OPENING_FEES pair_symbol with
  | some fee => fee
  | none => (tableLookup OPENING_FEES "_CRYPTO_").getD 0

/-- `calculate_opening_fee` (lines 94-99): `(notional_usdc * fee_bps) / 10000`. -/
def calculate_opening_fee (notional_usdc : ℚ) (pair_symbol : String) : ℚ :=
  (notional_usdc * (get_opening_fee_bps pair_symbol : ℚ)) / 10000

/-- Asset classes named by the fee table's default keys. -/
inductive AssetClass where
  | crypto | indices | forex | stocks
deriving Repr, DecidableEq

/-- The table key holding an asset class's default rate. -/
def classDefaultKey : AssetClass → String
  | .crypto => "_CRYPTO_"
  | .indices => "_INDICES_"
  | .forex => "_FOREX_"
  | .stocks => "_STOCKS_"

/-- Modelled from the spec (refinement comparison for the fee lookup): the
spec's `feeRateBps` "looks up a static table keyed by exact pair symbol,
falling back to an asset-class default, falling back further to a single
global default if the class is unknown". `classOf` is the classification of
pairs into asset classes, which the source does not implement. -/
def spec_feeRateBps (classOf : String → Option AssetClass) (globalDefault : Nat)
    (pair : String) : Nat :=
  match tableLookup OPENING_FEES pair with
  | some fee => fee
  | none =>
    match classOf pair with
    | some c => (tableLookup OPENING_FEES (classDefaultKey c)).getD globalDefault
    | none => globalDefault

/-! ## Data model -/

/-- One open trade record from the upstream snapshot, with the fields
`main.py` reads from it. All raw numeric fields are assumed convertible
(`float(...)` succeeds); the pair identifiers and symbols come from the
nested `pair` object. -/
structure Trade where
  pairId : String     -- trade['pair']['id']
  pairFrom : String   -- trade['pair']['from']
  pairTo : String     -- trade['pair']['to']
  index : Int         -- trade['index']
  collateral : Int    -- raw, 6 decimals
  notional : Int      -- raw, 6 decimals
  openPrice : Int     -- raw, 18 decimals
  leverage : Int      -- raw, 2 decimals
  isBuy : Bool
deriving Repr, DecidableEq

/-- One recent-history record (closure record). A field of type `Option Int`
is `none` when its `float(...)` conversion would raise (the value cannot be
converted to a number); `collateral` is used by the matcher and is assumed
convertible. -/
structure HistItem where
  id : String                      -- item['id']
  pairId : String                  -- item['pair']['id']
  orderAction : String             -- item['orderAction']
  collateral : Int                 -- item['collateral'], raw 6 decimals
  price : Option Int               -- item['price'], raw 18 decimals
  amountSentToTrader : Option Int  -- raw 6 decimals
  rolloverFee : Option Int         -- raw 18 decimals
  fundingFee : Option Int          -- raw 18 decimals
deriving Repr, DecidableEq

/-- First value bound to key `k` in an association list: Python dict lookup
(`d[k]` / `k in d` / `d.get(k)` on an insertion-ordered dict). -/
def dictLookup (d : List (String × Trade)) (k : String) : Option Trade :=
  match d with
  | [] => none
  | p :: rest => if p.1 = k then some p.2 else dictLookup rest k

/-- Python dict assignment `d[k] = v`: overwrite in place when the key is
present, append otherwise. -/
def dictInsert (d : List (String × Trade)) (k : String) (v : Trade) :
    List (String × Trade) :=
  if (dictLookup d k).isSome then
    d.map (fun p => if p.1 = k then (k, v) else p)
  else d ++ [(k, v)]

/-- The snapshot type: `current_trades`, a dict keyed by unique id. -/
abbrev Snapshot := List (String × Trade)

/-! ## `get_current_trades_dict` (lines 102-122) -/

/-- The unique id of a trade: `f"{pair_id}-{trade_index}"`. -/
def uniqueId (t : Trade) : String := t.pairId ++ "-" ++ toString t.index

/-- Lines 107-112: build `current_trades` from the fetched list, keyed by
unique id (later records overwrite earlier ones with the same key). -/
def buildTradesDict (open_trades : List Trade) : Snapshot :=
  open_trades.foldl (fun d trade => dictInsert d (uniqueId trade) trade) []

/-- `get_current_trades_dict` over the outcomes of its fetch attempts
(`none` = the attempt raised). Up to `retries` attempts are made; the first
successful one yields the dict, and when the last allowed attempt fails the
function returns `none` — the failure indicator, not an empty dict. -/
def get_current_trades_dict : Nat → List (Option (List Trade)) → Option Snapshot
  | 0, _ => none
  | _ + 1, [] => none
  | r + 1, a :: rest =>
    match a with
    | some open_trades => some (buildTradesDict open_trades)
    | none => if r = 0 then none else get_current_trades_dict r rest

/-! ## History matcher (lines 621-648) -/

/-- The collateral distance used by the matcher:
`abs(hist_collateral - trade_collateral)`. -/
def collDiff (t : Trade) (item : HistItem) : Int :=
  |item.collateral - t.collateral|

/-- Eligibility of a history record for a closed trade (the conditions of
lines 629-641): not already consumed, same pair id, order action `Close`,
collateral within the strict 1,000,000 raw-unit (1 USDC) tolerance. -/
def eligibleB (t : Trade) (used : List String) (item : HistItem) : Bool :=
  !(used.contains item.id) && item.pairId == t.pairId
    && item.orderAction == "Close" && collDiff t item < 1000000

/-- The body of the `for item in history` loop (lines 628-644): the
accumulator is `(best_match, min_diff)`, `none` standing for
`best_match = None, min_diff = inf`. -/
def matchStep (t : Trade) (used : List String)
    (acc : Option (HistItem × Int)) (item : HistItem) : Option (HistItem × Int) :=
  if used.contains item.id then acc
  else if item.pairId == t.pairId && item.orderAction == "Close" then
    let diff := collDiff t item
    if diff < 1000000 then
      match acc with
      | none => some (item, diff)
      | some (b, m) => if diff < m then some (item, diff) else some (b, m)
    else acc
  else acc

/-- The matcher: scan the history window once and return `best_match`. -/
def findBestMatch (t : Trade) (history : List HistItem) (used : List String) :
    Option HistItem :=
  (history.foldl (matchStep t used) none).map Prod.fst

/-! ## Message formatter, CLOSED branch (lines 170-229) -/

/-- Lines 172-181: liquidation classification. `True` when no close details
were supplied, when `float(close_details.get('price', 0))` raises (the
`except` arm), or when the converted close price equals zero. -/
def close_is_liquidation (close_details : Option HistItem) : Bool :=
  match close_details with
  | none => true
  | some cd =>
    match cd.price with
    | none => true
    | some p => p == 0

/-- The additional close-details block (lines 198-225), one field per
rendered line. `funding_line` is `some` exactly when the
`**Funding Paid:**` line is rendered. -/
structure CloseInfo where
  close_price_val : ℚ   -- the **Close Price:** line
  opening_fee : ℚ       -- the **Opening Fee:** line
  funding_line : Option ℚ
  pnl_val : ℚ           -- the **PnL:** line
deriving Repr, DecidableEq

/-- The result of `format_trade_message(trade, status="CLOSED", close_details)`:
the headline, the pair symbol of the base message, and the optional
additional block. `info = none` means only the base message is returned —
no close-price, funding or PnL line. -/
structure ClosedMsg where
  title : String
  pair_symbol : String
  info : Option CloseInfo
deriving Repr, DecidableEq

/-- `f"{pair_from}/{pair_to}"`. -/
def pairSymbol (t : Trade) : String := t.pairFrom ++ "/" ++ t.pairTo

/-- The CLOSED branch of `format_trade_message` (lines 170-229). The inner
`try` block (lines 199-227) falls back to the base message when one of its
conversions raises, modelled by the catch-all `Option` match arm. -/
def format_trade_closed (trade : Trade) (close_details : Option HistItem) :
    ClosedMsg :=
  let pair_symbol := pairSymbol trade
  let size_val := scale6 trade.notional
  let opening_fee := calculate_opening_fee size_val pair_symbol
  let is_liquidation := close_is_liquidation close_details
  let title := if is_liquidation then "💀 **LIQUIDATED** 💀" else "❌ **TRADE CLOSED** ❌"
  let info : Option CloseInfo :=
    match close_details with
    | none => none
    | some cd =>
      if is_liquidation then none
      else
        match cd.price, cd.amountSentToTrader, cd.rolloverFee, cd.fundingFee with
        | some price, some amt_sent, some rollover, some funding =>
          let close_price_val := scale18 price
          let pnl_val := scale6 (amt_sent - cd.collateral)
          let total_funding := scale18 rollover + scale18 funding
          some { close_price_val := close_price_val
                 opening_fee := opening_fee
                 funding_line := if total_funding > 1/100 then some total_funding else none
                 pnl_val := pnl_val }
        | _, _, _, _ => none
  { title := title, pair_symbol := pair_symbol, info := info }

/-! ## Reconciliation engine: one iteration of the polling loop
(lines 544-656) -/

/-- The events a tick hands to the delivery layer, in emission order. -/
inductive Event where
  | newTrade (uid : String) (t : Trade)
  | update (uid : String) (t : Trade) (diff_str : String)
  | closed (uid : String) (t : Trade) (close_details : Option HistItem)
deriving Repr, DecidableEq

/-- The key an event is about. -/
def eventUid : Event → String
  | .newTrade uid _ => uid
  | .update uid _ _ => uid
  | .closed uid _ _ => uid

/-- The engine state: `known_trades` and the `first_run` flag. -/
structure PollState where
  known_trades : List (String × Trade)
  first_run : Bool
deriving Repr, DecidableEq

/-- Lines 566-596, one snapshot entry: emit NEW TRADE for an unknown key;
for a known key, emit TRADE UPDATE and overwrite the stored trade exactly
when the raw collateral moved by strictly more than 1000; otherwise leave
state and events untouched. -/
def newModStep (acc : List (String × Trade) × List Event) (ut : String × Trade) :
    List (String × Trade) × List Event :=
  match dictLookup acc.1 ut.1 with
  | none =>
    (dictInsert acc.1 ut.1 ut.2, acc.2 ++ [Event.newTrade ut.1 ut.2])
  | some old_trade =>
    if 1000 < |ut.2.collateral - old_trade.collateral| then
      (dictInsert acc.1 ut.1 ut.2,
       acc.2 ++ [Event.update ut.1 ut.2 (modDiffStr ut.2.collateral old_trade.collateral)])
    else acc

/-- The NEW/MODIFIED pass over the whole snapshot. -/
def newModPass (known : List (String × Trade)) (current : Snapshot) :
    List (String × Trade) × List Event :=
  current.foldl newModStep (known, [])

/-- Lines 614-653, one known entry, with an explicit consumed set: skip keys
still present in the snapshot; otherwise match against history, emit the
closed event, record the matched id in `used_history_ids` and the key in
`closed_uids`. -/
def closedStep (current : Snapshot) (history : List HistItem)
    (acc : List Event × List String × List String) (ut : String × Trade) :
    List Event × List String × List String :=
  if (dictLookup current ut.1).isSome then acc
  else
    match findBestMatch ut.2 history acc.2.1 with
    | some best =>
      (acc.1 ++ [Event.closed ut.1 ut.2 (some best)], acc.2.1 ++ [best.id],
       acc.2.2 ++ [ut.1])
    | none =>
      (acc.1 ++ [Event.closed ut.1 ut.2 none], acc.2.1, acc.2.2 ++ [ut.1])

/-- The closed-trades pass starting from a given consumed set (the source
always starts it from the empty set, line 600: `used_history_ids = set()`). -/
def processClosedFrom (used0 : List String) (known : List (String × Trade))
    (current : Snapshot) (history : List HistItem) :
    List Event × List String × List String :=
  known.foldl (closedStep current history) ([], used0, [])

/-- The closed-trades pass of a tick: consumed set created empty. -/
def processClosed (known : List (String × Trade)) (current : Snapshot)
    (history : List HistItem) : List Event × List String × List String :=
  processClosedFrom [] known current history

/-- The effective history window of a tick (lines 602-612): empty when no
trade closed (no fetch happens) and when the history fetch raised
(`histFetch = none`); otherwise the fetched window. -/
def tickHistory (known1 : List (String × Trade)) (current : Snapshot)
    (histFetch : Option (List HistItem)) : List HistItem :=
  let closed_trades_list := known1.filter (fun ut => (dictLookup current ut.1).isNone)
  if closed_trades_list.isEmpty then [] else histFetch.getD []

/-- One iteration of the `while True` polling loop (lines 544-656), with an
explicit initial consumed set for the closed pass. `fetched = none` is the
failure indicator of `get_current_trades_dict`: the tick is skipped.
On the first successful fetch the snapshot becomes the known state and no
events are emitted. Otherwise the NEW/MODIFIED pass runs over the snapshot,
then the closed pass over the updated known state, and the closed keys are
deleted. -/
def pollTickFrom (used0 : List String) (st : PollState) (fetched : Option Snapshot)
    (histFetch : Option (List HistItem)) : PollState × List Event :=
  match fetched with
  | none => (st, [])
  | some current =>
    if st.first_run then ({ known_trades := current, first_run := false }, [])
    else
      let nm := newModPass st.known_trades current
      let pc := processClosedFrom used0 nm.1 current (tickHistory nm.1 current histFetch)
      ({ known_trades := nm.1.filter (fun p => !(pc.2.2.contains p.1)),
         first_run := false },
       nm.2 ++ pc.1)

/-- One iteration of the polling loop as the source runs it: the consumed
set of the closed pass is created empty (line 600). -/
def pollTick (st : PollState) (fetched : Option Snapshot)
    (histFetch : Option (List HistItem)) : PollState × List Event :=
  pollTickFrom [] st fetched histFetch

/-- The ids consumed by a tick's history matcher (the final value of
`used_history_ids`, a per-tick local of the loop body). -/
def tickUsedIds (st : PollState) (fetched : Option Snapshot)
    (histFetch : Option (List HistItem)) : List String :=
  match fetched with
  | none => []
  | some current =>
    if st.first_run then []
    else
      let nm := newModPass st.known_trades current
      (processClosed nm.1 current (tickHistory nm.1 current histFetch)).2.1

/-! ## Delivery fan-out: `broadcast_message` (lines 437-470) -/

/-- The outcome of one `send_message` call: success, `Forbidden` (the
recipient revoked access — a permanent rejection), or any other exception. -/
inductive SendResult where
  | ok
  | forbidden
  | otherError
deriving Repr, DecidableEq

/-- What a broadcast did: whether the group send was attempted and
succeeded, which subscriber chats were attempted in order, and the
subscriber set after self-pruning. -/
structure BroadcastResult where
  groupAttempted : Bool
  groupOk : Bool
  attempted : List Int
  subscribers : List Int
deriving Repr, DecidableEq

/-- The body of the per-subscriber loop (lines 457-470): attempt the
delivery; a `Forbidden` outcome removes that chat id from the set
(`subscribers.remove(chat_id)` + save), any other failure leaves it
subscribed. `send` gives each chat delivery's outcome. -/
def sendStep (send : Int → SendResult) (acc : List Int × List Int) (chat_id : Int) :
    List Int × List Int :=
  let (att, subs) := acc
  match send chat_id with
  | .forbidden => (att ++ [chat_id], subs.filter (fun c => !(c == chat_id)))
  | _ => (att ++ [chat_id], subs)

/-- `broadcast_message` continued: send to the group, then fold `sendStep`
over the snapshot `list(subscribers)` taken before the loop. -/
def broadcast_message (subscribers : List Int) (groupSend : SendResult)
    (send : Int → SendResult) : BroadcastResult :=
  let groupOk := groupSend == SendResult.ok
  if subscribers.isEmpty then
    { groupAttempted := true, groupOk := groupOk, attempted := [], subscribers := subscribers }
  else
    let res := subscribers.foldl (sendStep send) ([], subscribers)
    { groupAttempted := true, groupOk := groupOk, attempted := res.1, subscribers := res.2 }

/-! ## Helper lemmas -/

/-- A skipped tick (failed fetch) is the identity on the state and emits
nothing. -/
lemma pollTick_none (st : PollState) (hf : Option (List HistItem)) :
    pollTick st none hf = (st, []) := rfl

/-- Any number of skipped ticks leaves the initial state untouched. -/
lemma foldl_pollTick_none (l : List (Option (List HistItem))) (st : PollState) :
    l.foldl (fun s hf => (pollTick s none hf).1) st = st := by
  induction l with
  | nil => rfl
  | cons x xs ih =>
    rw [List.foldl_cons, show (pollTick st none x).1 = st from rfl]
    exact ih

/-- One closed-pass step only appends to the events list. -/
lemma closedStep_evs (current : Snapshot) (history : List HistItem)
    (acc : List Event × List String × List String) (ut : String × Trade) :
    ∃ more, (closedStep current history acc ut).1 = acc.1 ++ more := by
  unfold closedStep
  by_cases h : (dictLookup current ut.1).isSome
  · exact ⟨[], by rw [if_pos h, List.append_nil]⟩
  · rw [if_neg h]
    cases hfb : findBestMatch ut.2 history acc.2.1 with
    | some best => exact ⟨[Event.closed ut.1 ut.2 (some best)], rfl⟩
    | none => exact ⟨[Event.closed ut.1 ut.2 none], rfl⟩

/-- The events list of the closed pass only grows along the fold. -/
lemma closedFold_evs_prefix (current : Snapshot) (history : List HistItem) :
    ∀ (l : List (String × Trade)) (acc : List Event × List String × List String),
      ∃ tail, (l.foldl (closedStep current history) acc).1 = acc.1 ++ tail := by
  intro l
  induction l with
  | nil => intro acc; exact ⟨[], by simp⟩
  | cons x xs ih =>
    intro acc
    obtain ⟨tail, htail⟩ := ih (closedStep current history acc x)
    obtain ⟨more, hmore⟩ := closedStep_evs current history acc x
    exact ⟨more ++ tail, by rw [List.foldl_cons, htail, hmore, List.append_assoc]⟩

/-! ## C2: first successful fetch establishes the baseline -/

/-- C2: whatever the snapshot contents, the very first successful fetch
after process start (any number of failed ticks may precede it) emits no
events, and the known-state map becomes exactly the fetched snapshot. -/
theorem C2_first_fetch_baseline (failedHists : List (Option (List HistItem)))
    (current : Snapshot) (histFetch : Option (List HistItem)) :
    pollTick (failedHists.foldl (fun s hf => (pollTick s none hf).1)
        { known_trades := [], first_run := true }) (some current) histFetch
      = ({ known_trades := current, first_run := false }, []) := by
  rw [foldl_pollTick_none]
  rfl

/-! ## C4: a failed fetch skips the whole tick -/

/-- C4: when `get_current_trades_dict` reports failure (it returns the
failure indicator `none` after exhausting its retries), the reconciliation
tick is skipped entirely: the known state is identical and no events are
emitted. -/
theorem C4_failed_fetch_skips_tick (st : PollState)
    (histFetch : Option (List HistItem)) (attempts : List (Option (List Trade)))
    (hfail : get_current_trades_dict 5 attempts = none) :
    pollTick st (get_current_trades_dict 5 attempts) histFetch = (st, []) := by
  rw [hfail]; rfl

/-- C4 witness: five consecutive failed attempts exhaust the retries and
the tick is skipped. -/
theorem C4_witness :
    get_current_trades_dict 5 [none, none, none, none, none] = none ∧
    pollTick { known_trades := [], first_run := false }
        (get_current_trades_dict 5 [none, none, none, none, none]) none
      = ({ known_trades := [], first_run := false }, []) :=
  ⟨by decide,
   C4_failed_fetch_skips_tick { known_trades := [], first_run := false } none
     [none, none, none, none, none] (by decide)⟩

/-! ## C7: opening-fee lookup (corrected) -/

/-- A classification assigning EUR/USD to the forex asset class. -/
def forexOnlyClassOf : String → Option AssetClass :=
  fun pair => if pair = "EUR/USD" then some AssetClass.forex else none

/-- C7 counterexample: EUR/USD has no exact table entry, so the claimed
asset-class fallback would give the forex default 3 bps; the code returns
the crypto default 10 bps for every pair missing from the table. -/
theorem C7_counterexample :
    get_opening_fee_bps "EUR/USD" = 10 ∧
    spec_feeRateBps forexOnlyClassOf 10 "EUR/USD" = 3 ∧
    get_opening_fee_bps "EUR/USD" ≠ spec_feeRateBps forexOnlyClassOf 10 "EUR/USD" := by
  refine ⟨by decide, by decide, by decide⟩

/-- C7 amended: the opening fee equals notional × feeRateBps(pair) / 10000,
where feeRateBps returns the static table's entry for the exact pair symbol
when present and otherwise always the crypto-class default of 10 bps,
regardless of the pair's asset class. -/
theorem C7_amended_fee_lookup (notional_usdc : ℚ) (pair : String) :
    calculate_opening_fee notional_usdc pair
      = (notional_usdc * (get_opening_fee_bps pair : ℚ)) / 10000 ∧
    (∀ fee, tableLookup OPENING_FEES pair = some fee → get_opening_fee_bps pair = fee) ∧
    (tableLookup OPENING_FEES pair = none → get_opening_fee_bps pair = 10) := by
  refine ⟨rfl, ?_, ?_⟩
  · intro fee h
    simp [get_opening_fee_bps, h]
  · intro h
    simp [get_opening_fee_bps, h]
    decide

/-! ## C8: independent fan-out with self-pruning -/

/-- Every subscriber of the snapshot is attempted, in order, whatever the
outcomes. -/
lemma sendFold_attempted (send : Int → SendResult) :
    ∀ (l : List Int) (acc : List Int × List Int),
      (l.foldl (sendStep send) acc).1 = acc.1 ++ l := by
  intro l
  induction l with
  | nil => intro acc; simp
  | cons x xs ih =>
    intro acc
    rw [List.foldl_cons, ih]
    rcases acc with ⟨att, subs⟩
    unfold sendStep
    cases send x <;> simp

/-- Membership in the pruned set after the loop: a chat survives iff it was
in the set and no processed delivery to it was a permanent rejection. -/
lemma sendFold_subscribers (send : Int → SendResult) :
    ∀ (l : List Int) (acc : List Int × List Int) (c : Int),
      c ∈ (l.foldl (sendStep send) acc).2 ↔
        c ∈ acc.2 ∧ ¬(c ∈ l ∧ send c = SendResult.forbidden) := by
  intro l
  induction l with
  | nil => intro acc c; simp
  | cons x xs ih =>
    intro acc c
    rw [List.foldl_cons, ih]
    rcases acc with ⟨att, subs⟩
    unfold sendStep
    by_cases hcx : c = x
    · subst hcx
      cases hsx : send c <;> simp [hsx, List.mem_filter]
    · cases hsx : send x <;> simp [List.mem_filter, hcx]

/-- The attempted list of a broadcast is the full subscriber snapshot. -/
lemma broadcast_message_attempted (subs : List Int) (g : SendResult)
    (send : Int → SendResult) :
    (broadcast_message subs g send).attempted = subs := by
  unfold broadcast_message
  by_cases h : subs.isEmpty
  · have h0 : subs = [] := List.isEmpty_iff.mp h
    simp [h0]
  · simp only [h, Bool.false_eq_true, if_false]
    simpa using sendFold_attempted send subs ([], subs)

/-- Membership in a broadcast's final subscriber set. -/
lemma broadcast_message_mem (subs : List Int) (g : SendResult)
    (send : Int → SendResult) (c : Int) :
    c ∈ (broadcast_message subs g send).subscribers ↔
      c ∈ subs ∧ send c ≠ SendResult.forbidden := by
  by_cases h : subs.isEmpty
  · have h0 : subs = [] := List.isEmpty_iff.mp h
    subst h0
    simp [broadcast_message]
  · have hsub : (broadcast_message subs g send).subscribers
        = (List.foldl (sendStep send) ([], subs) subs).2 := by
      unfold broadcast_message
      simp [h]
    rw [hsub, sendFold_subscribers send subs ([], subs) c]
    constructor
    · rintro ⟨hc, hn⟩
      exact ⟨hc, fun hf => hn ⟨hc, hf⟩⟩
    · rintro ⟨hc, hn⟩
      exact ⟨hc, fun hcf => hn hcf.2⟩

/-- C8: each subscriber delivery is attempted independently (the full
snapshot is attempted whatever the group outcome and the other deliveries);
a permanent rejection removes exactly that subscriber from the set, any
other failure retains it; the group outcome changes nothing about the
subscriber deliveries; and a pruned subscriber is skipped by every
subsequent broadcast. -/
theorem C8_broadcast_fanout (subscribers : List Int) (groupSend : SendResult)
    (send : Int → SendResult) :
    (broadcast_message subscribers groupSend send).attempted = subscribers ∧
    (∀ c : Int, c ∈ (broadcast_message subscribers groupSend send).subscribers ↔
        c ∈ subscribers ∧ send c ≠ SendResult.forbidden) ∧
    (∀ g2 : SendResult,
        (broadcast_message subscribers g2 send).attempted
          = (broadcast_message subscribers groupSend send).attempted ∧
        (broadcast_message subscribers g2 send).subscribers
          = (broadcast_message subscribers groupSend send).subscribers) ∧
    (∀ (c : Int) (g2 : SendResult) (send2 : Int → SendResult),
        send c = SendResult.forbidden →
        c ∉ (broadcast_message (broadcast_message subscribers groupSend send).subscribers
              g2 send2).attempted) := by
  refine ⟨broadcast_message_attempted subscribers groupSend send,
    fun c => broadcast_message_mem subscribers groupSend send c, ?_, ?_⟩
  · intro g2
    refine ⟨by rw [broadcast_message_attempted, broadcast_message_attempted], ?_⟩
    unfold broadcast_message
    by_cases h : subscribers.isEmpty <;> simp [h]
  · intro c g2 send2 hcf
    rw [broadcast_message_attempted]
    intro hmem
    exact ((broadcast_message_mem subscribers groupSend send c).mp hmem).2 hcf

/-! ## C9: the consumed set is per-tick -/

/-- C9: the matcher's consumed-identifier set is created empty at the start
of every reconciliation tick (every tick is `pollTickFrom []`) and is not
part of the carried state, so a record consumed by one tick stays eligible
for the very next tick: it satisfies the eligibility test against the empty
consumed set, and the first closed trade of any later tick is matched with
the empty consumed set. -/
theorem C9_consumed_set_fresh (st1 : PollState) (f1 : Option Snapshot)
    (h1 : Option (List HistItem)) :
    (∀ (st : PollState) (f : Option Snapshot) (h : Option (List HistItem)),
        pollTick st f h = pollTickFrom [] st f h) ∧
    (∀ r : HistItem, r.id ∈ tickUsedIds st1 f1 h1 →
        ∀ t : Trade, r.pairId = t.pairId → r.orderAction = "Close" →
          collDiff t r < 1000000 → eligibleB t [] r = true) ∧
    (∀ (uid : String) (t : Trade) (rest : List (String × Trade))
        (current2 : Snapshot) (history2 : List HistItem),
        dictLookup current2 uid = none →
        (processClosed ((uid, t) :: rest) current2 history2).1.head? =
          some (Event.closed uid t (findBestMatch t history2 []))) := by
  refine ⟨fun _ _ _ => rfl, ?_, ?_⟩
  · intro r _ t hpair hact hdiff
    simp [eligibleB, hpair, hact, hdiff]
  · intro uid t rest current2 history2 hclosed
    unfold processClosed processClosedFrom
    rw [List.foldl_cons]
    have hstep : closedStep current2 history2 ([], [], []) (uid, t) =
        match findBestMatch t history2 [] with
        | some best => ([Event.closed uid t (some best)], [best.id], [uid])
        | none => ([Event.closed uid t none], [], [uid]) := by
      unfold closedStep
      simp [hclosed]
    rw [hstep]
    cases hfb : findBestMatch t history2 [] with
    | some best =>
      obtain ⟨tail, htail⟩ := closedFold_evs_prefix current2 history2 rest
        ([Event.closed uid t (some best)], [best.id], [uid])
      simp [htail]
    | none =>
      obtain ⟨tail, htail⟩ := closedFold_evs_prefix current2 history2 rest
        ([Event.closed uid t none], [], [uid])
      simp [htail]

/-! ## C1: the history matcher -/

/-- Unpack the eligibility test into its four conditions. -/
lemma eligibleB_iff (t : Trade) (used : List String) (x : HistItem) :
    eligibleB t used x = true ↔
      ¬ x.id ∈ used ∧ x.pairId = t.pairId ∧ x.orderAction = "Close" ∧
        collDiff t x < 1000000 := by
  unfold eligibleB
  simp [and_assoc]

/-- An ineligible record never changes the scan accumulator. -/
lemma matchStep_not_elig (t : Trade) (used : List String)
    (acc : Option (HistItem × Int)) (x : HistItem)
    (h : ¬ eligibleB t used x = true) :
    matchStep t used acc x = acc := by
  rw [eligibleB_iff] at h
  unfold matchStep
  by_cases h1 : used.contains x.id = true
  · rw [if_pos h1]
  · rw [if_neg h1]
    have h1m : ¬ x.id ∈ used := by simpa using h1
    by_cases h2 : (x.pairId == t.pairId && x.orderAction == "Close") = true
    · rw [if_pos h2]
      have hpa : x.pairId = t.pairId ∧ x.orderAction = "Close" := by simpa using h2
      have h3 : ¬ collDiff t x < 1000000 := fun hlt => h ⟨h1m, hpa.1, hpa.2, hlt⟩
      simp only [h3, if_false]
    · rw [if_neg h2]

/-- Case analysis of one scan step: either the accumulator is kept (and any
eligible record not taken is at least as far as the held minimum), or the
record is eligible, strictly closer than the held minimum, and taken. -/
lemma matchStep_cases (t : Trade) (used : List String)
    (acc : Option (HistItem × Int)) (x : HistItem) :
    (matchStep t used acc x = acc ∧
      (eligibleB t used x = true →
        ∃ b mb, acc = some (b, mb) ∧ mb ≤ collDiff t x)) ∨
    (eligibleB t used x = true ∧
      matchStep t used acc x = some (x, collDiff t x) ∧
      ∀ b mb, acc = some (b, mb) → collDiff t x < mb) := by
  by_cases h : eligibleB t used x = true
  · have h2 := (eligibleB_iff t used x).mp h
    obtain ⟨h1m, hp, ha, hd⟩ := h2
    have hstep : matchStep t used acc x =
        match acc with
        | none => some (x, collDiff t x)
        | some (b, m) =>
          if collDiff t x < m then some (x, collDiff t x) else some (b, m) := by
      unfold matchStep
      rw [if_neg (by simpa using h1m), if_pos (by simp [hp, ha]), if_pos hd]
    cases acc with
    | none =>
      right
      exact ⟨h, hstep, by simp⟩
    | some p =>
      rcases p with ⟨b, mb⟩
      by_cases hlt : collDiff t x < mb
      · right
        refine ⟨h, ?_, ?_⟩
        · rw [hstep]
          show (if collDiff t x < mb then some (x, collDiff t x) else some (b, mb))
            = some (x, collDiff t x)
          rw [if_pos hlt]
        · intro b2 mb2 hacc
          injection hacc with hp2
          injection hp2 with hb2 hm2
          rw [← hm2]; exact hlt
      · left
        refine ⟨?_, fun _ => ⟨b, mb, rfl, le_of_not_lt hlt⟩⟩
        rw [hstep]
        show (if collDiff t x < mb then some (x, collDiff t x) else some (b, mb))
          = some (b, mb)
        rw [if_neg hlt]
  · left
    exact ⟨matchStep_not_elig t used acc x h, fun he => absurd he h⟩

/-- The scan returns nothing iff it started with nothing and saw no
eligible record. -/
lemma matchFold_none_iff (t : Trade) (used : List String) :
    ∀ (l : List HistItem) (acc : Option (HistItem × Int)),
      l.foldl (matchStep t used) acc = none ↔
        acc = none ∧ ∀ x ∈ l, ¬ eligibleB t used x = true := by
  intro l
  induction l with
  | nil => intro acc; simp
  | cons x xs ih =>
    intro acc
    rw [List.foldl_cons, ih]
    constructor
    · rintro ⟨hstep, hrest⟩
      rcases matchStep_cases t used acc x with ⟨heq, hextra⟩ | ⟨helx, heq, _⟩
      · rw [heq] at hstep
        subst hstep
        refine ⟨rfl, ?_⟩
        intro y hy
        rcases List.mem_cons.mp hy with rfl | hyy
        · intro hely
          obtain ⟨b, mb, hacc, _⟩ := hextra hely
          exact Option.noConfusion hacc
        · exact hrest y hyy
      · rw [heq] at hstep
        exact Option.noConfusion hstep
    · rintro ⟨hacc, hall⟩
      rw [matchStep_not_elig t used acc x (hall x (List.mem_cons_self x xs))]
      exact ⟨hacc, fun y hy => hall y (List.mem_cons_of_mem x hy)⟩

/-- The scan's minimum: a returned pair bounds every eligible record's
distance and never exceeds the incoming accumulator's minimum. -/
lemma matchFold_min (t : Trade) (used : List String) :
    ∀ (l : List HistItem) (acc : Option (HistItem × Int)) (r : HistItem) (m : Int),
      l.foldl (matchStep t used) acc = some (r, m) →
      (∀ x ∈ l, eligibleB t used x = true → m ≤ collDiff t x) ∧
      (∀ b mb, acc = some (b, mb) → m ≤ mb) := by
  intro l
  induction l with
  | nil =>
    intro acc r m h
    refine ⟨by simp, ?_⟩
    intro b mb hacc
    rw [hacc] at h
    injection h with hp
    injection hp with hb hm
    rw [hm]
  | cons x xs ih =>
    intro acc r m h
    rw [List.foldl_cons] at h
    obtain ⟨hxs, haccb⟩ := ih (matchStep t used acc x) r m h
    rcases matchStep_cases t used acc x with ⟨heq, hextra⟩ | ⟨helx, heq, hbound⟩
    · refine ⟨?_, ?_⟩
      · intro y hy hely
        rcases List.mem_cons.mp hy with rfl | hyy
        · obtain ⟨b, mb, hacc, hmb⟩ := hextra hely
          exact le_trans (haccb b mb (by rw [heq, hacc])) hmb
        · exact hxs y hyy hely
      · intro b mb hacc
        exact haccb b mb (by rw [heq, hacc])
    · refine ⟨?_, ?_⟩
      · intro y hy hely
        rcases List.mem_cons.mp hy with rfl | hyy
        · exact haccb y (collDiff t y) heq
        · exact hxs y hyy hely
      · intro b mb hacc
        exact le_of_lt (lt_of_le_of_lt (haccb x (collDiff t x) heq) (hbound b mb hacc))

/-- The scan's tie-break: unless the incoming accumulator survives
untouched, the result is an eligible record at its own distance, and every
eligible record scanned before it is strictly farther. -/
lemma matchFold_first (t : Trade) (used : List String) :
    ∀ (l : List HistItem) (acc : Option (HistItem × Int)) (r : HistItem) (m : Int),
      l.foldl (matchStep t used) acc = some (r, m) →
      acc = some (r, m) ∨
      (eligibleB t used r = true ∧ m = collDiff t r ∧
        ∃ l1 l2, l = l1 ++ r :: l2 ∧
          (∀ b mb, acc = some (b, mb) → m < mb) ∧
          (∀ x ∈ l1, eligibleB t used x = true → m < collDiff t x)) := by
  intro l
  induction l with
  | nil =>
    intro acc r m h
    left
    simpa using h
  | cons x xs ih =>
    intro acc r m h
    rw [List.foldl_cons] at h
    rcases ih (matchStep t used acc x) r m h with hacc2 | ⟨helig, hm, l1, l2, hsplit, haccb, hl1⟩
    · rcases matchStep_cases t used acc x with ⟨heq, hextra⟩ | ⟨helx, heq, hbound⟩
      · left
        rw [← heq]
        exact hacc2
      · rw [heq] at hacc2
        injection hacc2 with hp
        injection hp with hx hmx
        right
        subst hx
        refine ⟨helx, hmx.symm, [], xs, rfl, ?_, by simp⟩
        intro b mb hacc
        rw [← hmx]
        exact hbound b mb hacc
    · rcases matchStep_cases t used acc x with ⟨heq, hextra⟩ | ⟨helx, heq, hbound⟩
      · right
        refine ⟨helig, hm, x :: l1, l2, by rw [hsplit, List.cons_append], ?_, ?_⟩
        · intro b mb hacc
          exact haccb b mb (by rw [heq, hacc])
        · intro y hy hely
          rcases List.mem_cons.mp hy with rfl | hyy
          · obtain ⟨b, mb, hacc, hmb⟩ := hextra hely
            exact lt_of_lt_of_le (haccb b mb (by rw [heq, hacc])) hmb
          · exact hl1 y hyy hely
      · right
        refine ⟨helig, hm, x :: l1, l2, by rw [hsplit, List.cons_append], ?_, ?_⟩
        · intro b mb hacc
          exact lt_trans (haccb x (collDiff t x) heq) (hbound b mb hacc)
        · intro y hy hely
          rcases List.mem_cons.mp hy with rfl | hyy
          · exact haccb y (collDiff t y) heq
          · exact hl1 y hyy hely

/-- The matcher's full specification for a successful match. -/
lemma findBestMatch_spec (t : Trade) (history : List HistItem) (used : List String)
    (r : HistItem) (h : findBestMatch t history used = some r) :
    eligibleB t used r = true ∧
    (∀ x ∈ history, eligibleB t used x = true → collDiff t r ≤ collDiff t x) ∧
    ∃ l1 l2, history = l1 ++ r :: l2 ∧
      ∀ x ∈ l1, eligibleB t used x = true → collDiff t r < collDiff t x := by
  unfold findBestMatch at h
  cases hfold : history.foldl (matchStep t used) none with
  | none => rw [hfold] at h; exact Option.noConfusion h
  | some p =>
    rcases p with ⟨r2, m⟩
    rw [hfold] at h
    have hr : r2 = r := by simpa using h
    subst hr
    rcases matchFold_first t used history none r2 m hfold with hl |
      ⟨helig, hm, l1, l2, hsplit, _, hl1⟩
    · exact Option.noConfusion hl
    · obtain ⟨hmin, _⟩ := matchFold_min t used history none r2 m hfold
      subst hm
      exact ⟨helig, hmin, l1, l2, hsplit, hl1⟩

/-- When the matcher returns nothing, no record of the window is eligible. -/
lemma findBestMatch_none (t : Trade) (history : List HistItem) (used : List String)
    (h : findBestMatch t history used = none) :
    ∀ x ∈ history, eligibleB t used x = false := by
  unfold findBestMatch at h
  rw [Option.map_eq_none'] at h
  obtain ⟨-, hall⟩ := (matchFold_none_iff t used history none).mp h
  intro x hx
  exact Bool.not_eq_true _ ▸ (by simpa using hall x hx)

/-- The ids of the records the closed pass actually attached to events. -/
def selectedIds (evs : List Event) : List String :=
  evs.filterMap (fun e => match e with
    | Event.closed _ _ (some r) => some r.id
    | _ => none)

lemma selectedIds_append (evs1 evs2 : List Event) :
    selectedIds (evs1 ++ evs2) = selectedIds evs1 ++ selectedIds evs2 := by
  unfold selectedIds
  rw [List.filterMap_append]

/-- Invariant of the closed pass: every selected id is recorded in the
consumed set, and no id is ever selected twice. -/
lemma closedFold_inv (current : Snapshot) (history : List HistItem) :
    ∀ (l : List (String × Trade)) (evs : List Event) (used cu : List String),
      (∀ s ∈ selectedIds evs, s ∈ used) → (selectedIds evs).Nodup →
      (∀ s ∈ selectedIds (l.foldl (closedStep current history) (evs, used, cu)).1,
          s ∈ (l.foldl (closedStep current history) (evs, used, cu)).2.1) ∧
      (selectedIds (l.foldl (closedStep current history) (evs, used, cu)).1).Nodup := by
  intro l
  induction l with
  | nil => intro evs used cu h1 h2; exact ⟨h1, h2⟩
  | cons ut rest ih =>
    intro evs used cu h1 h2
    rw [List.foldl_cons]
    by_cases hc : (dictLookup current ut.1).isSome = true
    · have hstep : closedStep current history (evs, used, cu) ut = (evs, used, cu) := by
        unfold closedStep
        rw [if_pos hc]
      rw [hstep]
      exact ih evs used cu h1 h2
    · cases hfb : findBestMatch ut.2 history used with
      | some best =>
        have hstep : closedStep current history (evs, used, cu) ut
            = (evs ++ [Event.closed ut.1 ut.2 (some best)], used ++ [best.id],
               cu ++ [ut.1]) := by
          unfold closedStep
          simp [hc, hfb]
        rw [hstep]
        have hone : selectedIds [Event.closed ut.1 ut.2 (some best)] = [best.id] := by
          simp [selectedIds]
        have hnotused : ¬ best.id ∈ used :=
          ((eligibleB_iff ut.2 used best).mp
            (findBestMatch_spec ut.2 history used best hfb).1).1
        apply ih
        · intro s hs
          rw [selectedIds_append, hone] at hs
          rcases List.mem_append.mp hs with hs1 | hs2
          · exact List.mem_append.mpr (Or.inl (h1 s hs1))
          · exact List.mem_append.mpr (Or.inr hs2)
        · rw [selectedIds_append, hone]
          refine List.Nodup.append h2 (List.nodup_singleton _) ?_
          intro a ha1 ha2
          have ha : a = best.id := by simpa using ha2
          exact hnotused (ha ▸ h1 a ha1)
      | none =>
        have hstep : closedStep current history (evs, used, cu) ut
            = (evs ++ [Event.closed ut.1 ut.2 none], used, cu ++ [ut.1]) := by
          unfold closedStep
          simp [hc, hfb]
        rw [hstep]
        have hone : selectedIds [Event.closed ut.1 ut.2 none] = [] := by
          simp [selectedIds]
        apply ih
        · intro s hs
          rw [selectedIds_append, hone, List.append_nil] at hs
          exact h1 s hs
        · rw [selectedIds_append, hone, List.append_nil]
          exact h2

/-- A closed event carrying a match contributes its record's id to
`selectedIds`. -/
lemma mem_selectedIds (evs : List Event) (uid : String) (tr : Trade) (r : HistItem)
    (h : Event.closed uid tr (some r) ∈ evs) : r.id ∈ selectedIds evs := by
  unfold selectedIds
  exact List.mem_filterMap.mpr ⟨Event.closed uid tr (some r), h, rfl⟩

/-- C1: for every closed position, history window and consumed set, the
matcher returns a record only if it is eligible — same pair id, order
action `Close`, id not yet consumed, collateral distance strictly below
1,000,000 raw units — and that record minimises the collateral distance
among all eligible records, ties broken in favour of the first record in
scan order; when it returns nothing, no record is eligible. Within a
closed pass the selected record's id enters the consumed set, and no
record id is ever selected for two closures of the same pass. -/
theorem C1_history_matcher (t : Trade) (history : List HistItem) (used : List String) :
    (∀ r, findBestMatch t history used = some r →
        eligibleB t used r = true ∧
        (∀ x ∈ history, eligibleB t used x = true → collDiff t r ≤ collDiff t x) ∧
        ∃ l1 l2, history = l1 ++ r :: l2 ∧
          ∀ x ∈ l1, eligibleB t used x = true → collDiff t r < collDiff t x) ∧
    (findBestMatch t history used = none →
        ∀ x ∈ history, eligibleB t used x = false) ∧
    (∀ (known : List (String × Trade)) (current : Snapshot) (uid : String)
        (tr : Trade) (r : HistItem),
        Event.closed uid tr (some r) ∈ (processClosed known current history).1 →
        r.id ∈ (processClosed known current history).2.1) ∧
    (∀ (known : List (String × Trade)) (current : Snapshot),
        (selectedIds (processClosed known current history).1).Nodup) := by
  refine ⟨fun r h => findBestMatch_spec t history used r h,
    findBestMatch_none t history used, ?_, ?_⟩
  · intro known current uid tr r hmem
    have hinv := closedFold_inv current history known [] [] []
      (by intro s hs; simp [selectedIds] at hs) (by simp [selectedIds])
    exact hinv.1 r.id (mem_selectedIds _ uid tr r hmem)
  · intro known current
    exact (closedFold_inv current history known [] [] []
      (by intro s hs; simp [selectedIds] at hs) (by simp [selectedIds])).2

/-! ## C5, C6, C10: the closed-message formatter -/

/-- A scaled 18-decimal value is zero exactly when the raw value is. -/
lemma scale18_eq_zero (p : Int) : scale18 p = 0 ↔ p = 0 := by
  unfold scale18
  rw [div_eq_zero_iff]
  norm_num

/-- Sample open trade used by concrete witnesses. -/
def tradeSample : Trade :=
  { pairId := "1", pairFrom := "BTC", pairTo := "USD", index := 0,
    collateral := 100000000, notional := 1000000000,
    openPrice := 50000000000000000000000, leverage := 1000, isBuy := true }

/-- Sample well-formed closure record (close price 1.0, profit 5.0,
rollover 2.0). -/
def histClose : HistItem :=
  { id := "h1", pairId := "1", orderAction := "Close", collateral := 100000000,
    price := some 1000000000000000000, amountSentToTrader := some 105000000,
    rolloverFee := some 2000000000000000000, fundingFee := some 0 }

/-- Sample closure record whose price field cannot be converted. -/
def histBadPrice : HistItem :=
  { id := "h2", pairId := "1", orderAction := "Close", collateral := 100000000,
    price := none, amountSentToTrader := some 105000000,
    rolloverFee := some 0, fundingFee := some 0 }

/-- Sample closure record with combined rollover+funding equal to −5.0
display units. -/
def histNegFunding : HistItem :=
  { id := "h3", pairId := "1", orderAction := "Close", collateral := 100000000,
    price := some 1000000000000000000, amountSentToTrader := some 105000000,
    rolloverFee := some (-5000000000000000000), fundingFee := some 0 }

/-- C5: a closed rendering is classified as a liquidation iff no closure
record was supplied or the supplied record's close price scales to exactly
zero (records with convertible price fields); a liquidation rendering uses
the distinct liquidation headline and has no close-price and no PnL line,
while a non-liquidation rendering carries the close price and
PnL = (amountSentToTrader − historical collateral) scaled to display
units. -/
theorem C5_liquidation_classification (trade : Trade) (cd? : Option HistItem)
    (hwf : ∀ cd, cd? = some cd → cd.price.isSome = true) :
    (close_is_liquidation cd? = true ↔
       (cd? = none ∨ ∃ cd p, cd? = some cd ∧ cd.price = some p ∧ scale18 p = 0)) ∧
    (close_is_liquidation cd? = true →
       (format_trade_closed trade cd?).title = "💀 **LIQUIDATED** 💀" ∧
       (format_trade_closed trade cd?).info = none) ∧
    (close_is_liquidation cd? = false →
       ∀ cd, cd? = some cd →
         cd.amountSentToTrader.isSome = true → cd.rolloverFee.isSome = true →
         cd.fundingFee.isSome = true →
         (format_trade_closed trade cd?).title = "❌ **TRADE CLOSED** ❌" ∧
         ∃ info, (format_trade_closed trade cd?).info = some info ∧
           info.close_price_val = scale18 (cd.price.getD 0) ∧
           info.pnl_val = scale6 (cd.amountSentToTrader.getD 0 - cd.collateral)) := by
  cases cd? with
  | none =>
    refine ⟨by simp [close_is_liquidation], ?_, ?_⟩
    · intro _
      exact ⟨rfl, rfl⟩
    · intro hfalse
      exact absurd hfalse (by simp [close_is_liquidation])
  | some cd =>
    obtain ⟨p, hp⟩ := Option.isSome_iff_exists.mp (hwf cd rfl)
    have hliq : close_is_liquidation (some cd) = (p == 0) := by
      show (match cd.price with | none => true | some q => q == 0) = (p == 0)
      rw [hp]
    refine ⟨?_, ?_, ?_⟩
    · rw [hliq]
      simp only [beq_iff_eq]
      constructor
      · intro hp0
        exact Or.inr ⟨cd, p, rfl, hp, (scale18_eq_zero p).mpr hp0⟩
      · rintro (hnone | ⟨cd2, p2, hcd2, hp2, hs0⟩)
        · exact Option.noConfusion hnone
        · injection hcd2 with hcd2
          subst hcd2
          rw [hp] at hp2
          injection hp2 with hp2
          subst hp2
          exact (scale18_eq_zero p).mp hs0
    · intro htrue
      constructor
      · show (if close_is_liquidation (some cd) then
            "💀 **LIQUIDATED** 💀" else "❌ **TRADE CLOSED** ❌") = _
        rw [htrue]
        rfl
      · show (format_trade_closed trade (some cd)).info = none
        unfold format_trade_closed
        simp [htrue]
    · intro hfalse cd2 hcd2 hamt hrf hff
      injection hcd2 with hcd2
      subst hcd2
      obtain ⟨amt, hamt2⟩ := Option.isSome_iff_exists.mp hamt
      obtain ⟨rf, hrf2⟩ := Option.isSome_iff_exists.mp hrf
      obtain ⟨ff, hff2⟩ := Option.isSome_iff_exists.mp hff
      have hinfo : (format_trade_closed trade (some cd)).info
          = some { close_price_val := scale18 p,
                   opening_fee := calculate_opening_fee (scale6 trade.notional)
                     (pairSymbol trade),
                   funding_line := if scale18 rf + scale18 ff > 1/100
                     then some (scale18 rf + scale18 ff) else none,
                   pnl_val := scale6 (amt - cd.collateral) } := by
        unfold format_trade_closed
        simp only [hfalse, Bool.false_eq_true, if_false, hp, hamt2, hrf2, hff2]
      constructor
      · show (if close_is_liquidation (some cd) then
            "💀 **LIQUIDATED** 💀" else "❌ **TRADE CLOSED** ❌") = _
        rw [hfalse]
        rfl
      · refine ⟨_, hinfo, ?_, ?_⟩
        · rw [hp]
          rfl
        · rw [hamt2]
          rfl

/-- C5 witness: a concrete well-formed non-liquidation closure renders the
normal headline with close price and PnL. -/
theorem C5_witness :
    (format_trade_closed tradeSample (some histClose)).title = "❌ **TRADE CLOSED** ❌" ∧
    ∃ info, (format_trade_closed tradeSample (some histClose)).info = some info ∧
      info.close_price_val = scale18 (histClose.price.getD 0) ∧
      info.pnl_val = scale6 (histClose.amountSentToTrader.getD 0 - histClose.collateral) :=
  (C5_liquidation_classification tradeSample (some histClose)
      (by intro cd h; cases h; rfl)).2.2 (by decide) histClose rfl rfl rfl rfl

/-- C10: a closure record whose close-price field is present but cannot be
converted to a number (`float(...)` raises, the `except` arm of lines
176-181) is classified as a liquidation: liquidation headline and no
close-price/PnL block, instead of a propagated exception. -/
theorem C10_unconvertible_price_is_liquidation (trade : Trade) (cd : HistItem)
    (h : cd.price = none) :
    close_is_liquidation (some cd) = true ∧
    (format_trade_closed trade (some cd)).title = "💀 **LIQUIDATED** 💀" ∧
    (format_trade_closed trade (some cd)).info = none := by
  have hliq : close_is_liquidation (some cd) = true := by
    show (match cd.price with | none => true | some q => q == 0) = true
    rw [h]
  refine ⟨hliq, ?_, ?_⟩
  · show (if close_is_liquidation (some cd) then
        "💀 **LIQUIDATED** 💀" else "❌ **TRADE CLOSED** ❌") = _
    rw [hliq]
    rfl
  · unfold format_trade_closed
    simp [hliq]

/-- C10 witness: a concrete record with an unconvertible price renders the
liquidation message. -/
theorem C10_witness :
    close_is_liquidation (some histBadPrice) = true ∧
    (format_trade_closed tradeSample (some histBadPrice)).title = "💀 **LIQUIDATED** 💀" ∧
    (format_trade_closed tradeSample (some histBadPrice)).info = none :=
  C10_unconvertible_price_is_liquidation tradeSample histBadPrice rfl

/-- C6 counterexample: a record whose combined rollover+funding amount is
−5.0 display units (magnitude well above 0.01) still renders no funding
line, because line 220 tests the signed value `total_funding > 0.01`, not
its magnitude. -/
theorem C6_counterexample :
    (format_trade_closed tradeSample (some histNegFunding)).info.map
        CloseInfo.funding_line = some none ∧
    (1/100 : ℚ) < |scale18 (histNegFunding.rolloverFee.getD 0)
        + scale18 (histNegFunding.fundingFee.getD 0)| := by
  have htot : scale18 (histNegFunding.rolloverFee.getD 0)
      + scale18 (histNegFunding.fundingFee.getD 0) = -5 := by
    show scale18 (-5000000000000000000) + scale18 0 = -5
    unfold scale18
    norm_num
  constructor
  · have hng : ¬ ((1/100 : ℚ) < scale18 (-5000000000000000000) + scale18 0) := by
      unfold scale18
      norm_num
    unfold format_trade_closed close_is_liquidation
    simp only [histNegFunding]
    simp only [beq_iff_eq, show (1000000000000000000 : Int) ≠ 0 by norm_num,
      if_false, decide_eq_true_eq]
    simp [hng]
    unfold scale18
    norm_num
  · rw [htot]
    norm_num

/-- C6 (amended): for a non-liquidation closed rendering of a record with
convertible fee fields, the funding line is included iff the signed
combined rollover+funding amount exceeds 0.01 display units — a negative
combined amount never produces the line, whatever its magnitude — and the
line, when present, carries that combined amount. -/
theorem C6_amended_funding_line (trade : Trade) (cd : HistItem)
    (hliq : close_is_liquidation (some cd) = false)
    (hamt : cd.amountSentToTrader.isSome = true)
    (hrf : cd.rolloverFee.isSome = true) (hff : cd.fundingFee.isSome = true) :
    ∃ info, (format_trade_closed trade (some cd)).info = some info ∧
      (info.funding_line.isSome = true ↔
        1/100 < scale18 (cd.rolloverFee.getD 0) + scale18 (cd.fundingFee.getD 0)) ∧
      (∀ q, info.funding_line = some q →
        q = scale18 (cd.rolloverFee.getD 0) + scale18 (cd.fundingFee.getD 0)) := by
  obtain ⟨p, hp2⟩ : ∃ p, cd.price = some p := by
    cases hcp : cd.price with
    | none =>
      exfalso
      have htrue : close_is_liquidation (some cd) = true := by
        show (match cd.price with | none => true | some q => q == 0) = true
        rw [hcp]
      rw [htrue] at hliq
      exact Bool.noConfusion hliq
    | some p => exact ⟨p, rfl⟩
  obtain ⟨amt, hamt2⟩ := Option.isSome_iff_exists.mp hamt
  obtain ⟨rf, hrf2⟩ := Option.isSome_iff_exists.mp hrf
  obtain ⟨ff, hff2⟩ := Option.isSome_iff_exists.mp hff
  have hinfo : (format_trade_closed trade (some cd)).info
      = some { close_price_val := scale18 p,
               opening_fee := calculate_opening_fee (scale6 trade.notional)
                 (pairSymbol trade),
               funding_line := if scale18 rf + scale18 ff > 1/100
                 then some (scale18 rf + scale18 ff) else none,
               pnl_val := scale6 (amt - cd.collateral) } := by
    unfold format_trade_closed
    simp only [hliq, Bool.false_eq_true, if_false, hp2, hamt2, hrf2, hff2]
  rw [hrf2, hff2]
  simp only [Option.getD_some]
  refine ⟨_, hinfo, ?_, ?_⟩
  · by_cases hgt : scale18 rf + scale18 ff > 1/100
    · simp only [if_pos hgt]
      simpa using hgt
    · simp only [if_neg hgt]
      simpa using hgt
  · intro q hq
    by_cases hgt : scale18 rf + scale18 ff > 1/100
    · rw [if_pos hgt] at hq
      injection hq with hq
      rw [← hq]
    · rw [if_neg hgt] at hq
      exact Option.noConfusion hq

/-- C6 witness: a concrete record with combined funding +2.0 gets a funding
line carrying 2.0. -/
theorem C6_witness :
    ∃ info, (format_trade_closed tradeSample (some histClose)).info = some info ∧
      (info.funding_line.isSome = true ↔
        1/100 < scale18 (histClose.rolloverFee.getD 0)
          + scale18 (histClose.fundingFee.getD 0)) ∧
      (∀ q, info.funding_line = some q →
        q = scale18 (histClose.rolloverFee.getD 0)
          + scale18 (histClose.fundingFee.getD 0)) :=
  C6_amended_funding_line tradeSample histClose (by decide) rfl rfl rfl

/-! ## C3: the modified-trade dust threshold -/

/-- A successful lookup splits the dict at the first occurrence of the key. -/
lemma dictLookup_some_split (d : List (String × Trade)) (k : String) (v : Trade)
    (h : dictLookup d k = some v) :
    ∃ l1 l2, d = l1 ++ (k, v) :: l2 ∧ ¬ k ∈ l1.map Prod.fst := by
  induction d with
  | nil => exact Option.noConfusion h
  | cons p rest ih =>
    by_cases hp : p.1 = k
    · have hv : some p.2 = some v := by
        rw [show dictLookup (p :: rest) k = if p.1 = k then some p.2 else dictLookup rest k
          from rfl, if_pos hp] at h
        exact h
      injection hv with hv
      exact ⟨[], rest, by rw [← hp, ← hv]; rfl, by simp⟩
    · have h2 : dictLookup rest k = some v := by
        rw [show dictLookup (p :: rest) k = if p.1 = k then some p.2 else dictLookup rest k
          from rfl, if_neg hp] at h
        exact h
      obtain ⟨l1, l2, hsplit, hnot⟩ := ih h2
      refine ⟨p :: l1, l2, by rw [hsplit, List.cons_append], ?_⟩
      rw [List.map_cons]
      intro hmem
      rcases List.mem_cons.mp hmem with he | hmem2
      · exact hp he.symm
      · exact hnot hmem2

/-- Overwriting key `u` in place does not change the lookup of another key. -/
lemma dictLookup_map_ne (d : List (String × Trade)) (u : String) (v : Trade)
    (k : String) (h : ¬ u = k) :
    dictLookup (d.map (fun p => if p.1 = u then (u, v) else p)) k = dictLookup d k := by
  induction d with
  | nil => rfl
  | cons p rest ih =>
    rw [List.map_cons]
    by_cases hp : p.1 = u
    · rw [if_pos hp]
      show (if u = k then some v else _) = _
      rw [if_neg h,
        show dictLookup (p :: rest) k = if p.1 = k then some p.2 else dictLookup rest k
          from rfl,
        if_neg (fun hk => h (hp ▸ hk))]
      exact ih
    · rw [if_neg hp]
      show (if p.1 = k then some p.2 else _) = (if p.1 = k then some p.2 else _)
      by_cases hk : p.1 = k
      · rw [if_pos hk, if_pos hk]
      · rw [if_neg hk, if_neg hk]
        exact ih

/-- Appending an entry for another key does not change a lookup. -/
lemma dictLookup_append_ne (d : List (String × Trade)) (u : String) (v : Trade)
    (k : String) (h : ¬ u = k) :
    dictLookup (d ++ [(u, v)]) k = dictLookup d k := by
  induction d with
  | nil =>
    show (if u = k then some v else none) = none
    rw [if_neg h]
  | cons p rest ih =>
    rw [List.cons_append]
    show (if p.1 = k then some p.2 else _) = (if p.1 = k then some p.2 else _)
    by_cases hk : p.1 = k
    · rw [if_pos hk, if_pos hk]
    · rw [if_neg hk, if_neg hk]
      exact ih

/-- Python `d[u] = v` does not change the binding of another key. -/
lemma dictInsert_lookup_ne (d : List (String × Trade)) (u : String) (v : Trade)
    (k : String) (h : ¬ u = k) :
    dictLookup (dictInsert d u v) k = dictLookup d k := by
  unfold dictInsert
  by_cases hs : (dictLookup d u).isSome
  · rw [if_pos hs]
    exact dictLookup_map_ne d u v k h
  · rw [if_neg hs]
    exact dictLookup_append_ne d u v k h

/-- Overwriting a bound key in place rebinds it. -/
lemma dictLookup_map_self (d : List (String × Trade)) (k : String) (v : Trade) :
    ∀ w, dictLookup d k = some w →
      dictLookup (d.map (fun p => if p.1 = k then (k, v) else p)) k = some v := by
  induction d with
  | nil => intro w hw; exact Option.noConfusion hw
  | cons p rest ih =>
    intro w hw
    rw [List.map_cons]
    by_cases hp : p.1 = k
    · rw [if_pos hp]
      show (if k = k then some v else _) = some v
      rw [if_pos rfl]
    · rw [if_neg hp]
      show (if p.1 = k then some p.2 else _) = some v
      rw [if_neg hp]
      rw [show dictLookup (p :: rest) k = if p.1 = k then some p.2 else dictLookup rest k
        from rfl, if_neg hp] at hw
      exact ih w hw

/-- Appending a binding for an unbound key binds it. -/
lemma dictLookup_append_last (d : List (String × Trade)) (k : String) (v : Trade)
    (h : dictLookup d k = none) :
    dictLookup (d ++ [(k, v)]) k = some v := by
  induction d with
  | nil =>
    show (if k = k then some v else none) = some v
    rw [if_pos rfl]
  | cons p rest ih =>
    rw [show dictLookup (p :: rest) k = if p.1 = k then some p.2 else dictLookup rest k
      from rfl] at h
    by_cases hp : p.1 = k
    · rw [if_pos hp] at h
      exact Option.noConfusion h
    · rw [if_neg hp] at h
      rw [List.cons_append]
      show (if p.1 = k then some p.2 else _) = some v
      rw [if_neg hp]
      exact ih h

/-- Python `d[k] = v` rebinds `k` to `v`. -/
lemma dictInsert_lookup_self (d : List (String × Trade)) (k : String) (v : Trade) :
    dictLookup (dictInsert d k v) k = some v := by
  unfold dictInsert
  cases h : dictLookup d k with
  | some w =>
    rw [if_pos (by rfl)]
    exact dictLookup_map_self d k v w h
  | none =>
    rw [if_neg (by simp)]
    exact dictLookup_append_last d k v h

/-- A NEW/MODIFIED step on an entry with a different key does not touch the
lookup of `k` nor the events about `k`. -/
lemma newModStep_other (acc : List (String × Trade) × List Event)
    (ut : String × Trade) (k : String) (h : ¬ ut.1 = k) :
    dictLookup (newModStep acc ut).1 k = dictLookup acc.1 k ∧
    (newModStep acc ut).2.filter (fun e => eventUid e == k)
      = acc.2.filter (fun e => eventUid e == k) := by
  cases hl : dictLookup acc.1 ut.1 with
  | none =>
    have hstep : newModStep acc ut
        = (dictInsert acc.1 ut.1 ut.2, acc.2 ++ [Event.newTrade ut.1 ut.2]) := by
      unfold newModStep
      rw [hl]
    rw [hstep]
    refine ⟨dictInsert_lookup_ne acc.1 ut.1 ut.2 k h, ?_⟩
    rw [List.filter_append]
    simp [eventUid, h]
  | some old =>
    have hstep : newModStep acc ut
        = if 1000 < |ut.2.collateral - old.collateral| then
            (dictInsert acc.1 ut.1 ut.2,
             acc.2 ++ [Event.update ut.1 ut.2 (modDiffStr ut.2.collateral old.collateral)])
          else acc := by
      unfold newModStep
      rw [hl]
    rw [hstep]
    by_cases hgt : 1000 < |ut.2.collateral - old.collateral|
    · rw [if_pos hgt]
      refine ⟨dictInsert_lookup_ne acc.1 ut.1 ut.2 k h, ?_⟩
      rw [List.filter_append]
      simp [eventUid, h]
    · rw [if_neg hgt]
      exact ⟨rfl, rfl⟩

/-- The NEW/MODIFIED pass over entries whose keys all differ from `k`
neither rebinds `k` nor emits events about `k`. -/
lemma newModFold_other (k : String) :
    ∀ (l : List (String × Trade)) (acc : List (String × Trade) × List Event),
      ¬ k ∈ l.map Prod.fst →
      dictLookup (l.foldl newModStep acc).1 k = dictLookup acc.1 k ∧
      (l.foldl newModStep acc).2.filter (fun e => eventUid e == k)
        = acc.2.filter (fun e => eventUid e == k) := by
  intro l
  induction l with
  | nil => intro acc _; exact ⟨rfl, rfl⟩
  | cons ut rest ih =>
    intro acc hk
    have hk2 : ¬ (k = ut.1 ∨ k ∈ List.map Prod.fst rest) := by simpa using hk
    have hne : ¬ ut.1 = k := fun he => hk2 (Or.inl he.symm)
    have hkrest : ¬ k ∈ List.map Prod.fst rest := fun hm => hk2 (Or.inr hm)
    rw [List.foldl_cons]
    obtain ⟨h1, h2⟩ := newModStep_other acc ut k hne
    obtain ⟨h3, h4⟩ := ih (newModStep acc ut) hkrest
    exact ⟨h3.trans h1, h4.trans h2⟩

/-- Every event of the closed pass is about a key absent from the snapshot,
and so is every collected closed uid. -/
lemma closedFold_all_closed (current : Snapshot) (history : List HistItem) :
    ∀ (l : List (String × Trade)) (acc : List Event × List String × List String),
      (∀ e ∈ acc.1, (dictLookup current (eventUid e)).isSome = false) →
      (∀ u ∈ acc.2.2, (dictLookup current u).isSome = false) →
      (∀ e ∈ (l.foldl (closedStep current history) acc).1,
          (dictLookup current (eventUid e)).isSome = false) ∧
      (∀ u ∈ (l.foldl (closedStep current history) acc).2.2,
          (dictLookup current u).isSome = false) := by
  intro l
  induction l with
  | nil => intro acc h1 h2; exact ⟨h1, h2⟩
  | cons ut rest ih =>
    intro acc h1 h2
    rw [List.foldl_cons]
    by_cases hc : (dictLookup current ut.1).isSome = true
    · have hstep : closedStep current history acc ut = acc := by
        unfold closedStep
        rw [if_pos hc]
      rw [hstep]
      exact ih acc h1 h2
    · have hcf : (dictLookup current ut.1).isSome = false := by
        simpa using hc
      cases hfb : findBestMatch ut.2 history acc.2.1 with
      | some best =>
        have hstep : closedStep current history acc ut
            = (acc.1 ++ [Event.closed ut.1 ut.2 (some best)], acc.2.1 ++ [best.id],
               acc.2.2 ++ [ut.1]) := by
          unfold closedStep
          rw [if_neg hc, hfb]
        rw [hstep]
        refine ih _ ?_ ?_
        · intro e he
          rcases List.mem_append.mp he with he1 | he2
          · exact h1 e he1
          · have : e = Event.closed ut.1 ut.2 (some best) := by simpa using he2
            rw [this]
            exact hcf
        · intro u hu
          rcases List.mem_append.mp hu with hu1 | hu2
          · exact h2 u hu1
          · have : u = ut.1 := by simpa using hu2
            rw [this]
            exact hcf
      | none =>
        have hstep : closedStep current history acc ut
            = (acc.1 ++ [Event.closed ut.1 ut.2 none], acc.2.1, acc.2.2 ++ [ut.1]) := by
          unfold closedStep
          rw [if_neg hc, hfb]
        rw [hstep]
        refine ih _ ?_ ?_
        · intro e he
          rcases List.mem_append.mp he with he1 | he2
          · exact h1 e he1
          · have : e = Event.closed ut.1 ut.2 none := by simpa using he2
            rw [this]
            exact hcf
        · intro u hu
          rcases List.mem_append.mp hu with hu1 | hu2
          · exact h2 u hu1
          · have : u = ut.1 := by simpa using hu2
            rw [this]
            exact hcf

/-- Deleting only keys other than `k` preserves the lookup of `k`. -/
lemma dictLookup_filter_contains (d : List (String × Trade)) (cu : List String)
    (k : String) (h : cu.contains k = false) :
    dictLookup (d.filter (fun p => !(cu.contains p.1))) k = dictLookup d k := by
  induction d with
  | nil => rfl
  | cons p rest ih =>
    by_cases hk : p.1 = k
    · have hkeep : (!(cu.contains p.1)) = true := by rw [hk, h]; rfl
      rw [List.filter_cons, if_pos hkeep]
      show (if p.1 = k then some p.2 else _) = (if p.1 = k then some p.2 else _)
      rw [if_pos hk, if_pos hk]
    · rw [List.filter_cons]
      by_cases hkeep : (!(cu.contains p.1)) = true
      · rw [if_pos hkeep]
        show (if p.1 = k then some p.2 else _) = (if p.1 = k then some p.2 else _)
        rw [if_neg hk, if_neg hk]
        exact ih
      · rw [if_neg hkeep,
          show dictLookup (p :: rest) k = if p.1 = k then some p.2 else dictLookup rest k
            from rfl,
          if_neg hk]
        exact ih

/-- The reduction of a non-first-run tick on a successful fetch. -/
lemma pollTick_notFirst (st : PollState) (current : Snapshot)
    (hf : Option (List HistItem)) (hfr : st.first_run = false) :
    pollTick st (some current) hf
      = ({ known_trades := (newModPass st.known_trades current).1.filter
            (fun p => !((processClosed (newModPass st.known_trades current).1 current
                (tickHistory (newModPass st.known_trades current).1 current hf)).2.2.contains
                  p.1)),
           first_run := false },
         (newModPass st.known_trades current).2
           ++ (processClosed (newModPass st.known_trades current).1 current
                (tickHistory (newModPass st.known_trades current).1 current hf)).1) := by
  show pollTickFrom [] st (some current) hf = _
  unfold pollTickFrom
  rw [hfr]
  rfl

/-- A NEW/MODIFIED step on an entry whose key is known compares the raw
collaterals against the 1000 raw-unit dust threshold. -/
lemma newModStep_hit (acc : List (String × Trade) × List Event) (u : String)
    (tr t_old : Trade) (h : dictLookup acc.1 u = some t_old) :
    newModStep acc (u, tr)
      = if 1000 < |tr.collateral - t_old.collateral| then
          (dictInsert acc.1 u tr,
           acc.2 ++ [Event.update u tr (modDiffStr tr.collateral t_old.collateral)])
        else acc := by
  unfold newModStep
  rw [h]

/-- The rendering of a raw +2,000,000 collateral delta (6 decimals). -/
lemma modDiffStr_example : ∀ c : Int, modDiffStr (c + 2000000) c = "(+2.00 USDC)" := by
  intro c
  unfold modDiffStr
  rw [show c + 2000000 - c = (2000000 : Int) by ring]
  rw [show scale6 (2000000 : Int) = 2 by unfold scale6; norm_num]
  rw [if_pos (by norm_num : (0 : ℚ) < 2)]
  rw [show format2f 2 = "2.00" from ?_]
  · rfl
  · have hf : ratFloor 200 = 200 := by
      unfold ratFloor
      simp only [Rat.num_ofNat, Rat.den_ofNat, Nat.cast_one]
      decide
    have hr : rhe ((2 : ℚ) * 100) = 200 := by
      rw [show (2 : ℚ) * 100 = 200 by norm_num]
      unfold rhe
      rw [hf]
      norm_num
    unfold format2f
    rw [hr]
    decide

/-- C3: in a tick, a key present in both the known state and the snapshot
emits an event iff the raw collateral moved by strictly more than 1000 raw
units; when it does, exactly one TRADE UPDATE event about that key is
emitted, carrying the signed scaled delta (a raw +2,000,000 delta renders
as "+2.00"), and the stored trade is overwritten with the new one; at or
below the threshold no event about the key is emitted and the stored trade
is unchanged. -/
theorem C3_modified_dust_threshold (st : PollState) (current : Snapshot)
    (hf : Option (List HistItem)) (uid : String) (t_old t_new : Trade)
    (hfr : st.first_run = false)
    (hnodup : (current.map Prod.fst).Nodup)
    (hold : dictLookup st.known_trades uid = some t_old)
    (hnew : dictLookup current uid = some t_new) :
    (if 1000 < |t_new.collateral - t_old.collateral| then
       (pollTick st (some current) hf).2.filter (fun e => eventUid e == uid)
           = [Event.update uid t_new (modDiffStr t_new.collateral t_old.collateral)] ∧
       dictLookup (pollTick st (some current) hf).1.known_trades uid = some t_new
     else
       (pollTick st (some current) hf).2.filter (fun e => eventUid e == uid) = [] ∧
       dictLookup (pollTick st (some current) hf).1.known_trades uid = some t_old) ∧
    (∀ c : Int, modDiffStr (c + 2000000) c = "(+2.00 USDC)") := by
  refine ⟨?_, modDiffStr_example⟩
  obtain ⟨c1, c2, hsplit, hnotc1⟩ := dictLookup_some_split current uid t_new hnew
  have hnotc2 : ¬ uid ∈ c2.map Prod.fst := by
    rw [hsplit, List.map_append, List.map_cons] at hnodup
    exact (List.nodup_cons.mp (List.nodup_append.mp hnodup).2.1).1
  -- the NEW/MODIFIED pass
  have hnm : newModPass st.known_trades current
      = c2.foldl newModStep (newModStep (c1.foldl newModStep (st.known_trades, []))
          (uid, t_new)) := by
    unfold newModPass
    rw [hsplit, List.foldl_append, List.foldl_cons]
  obtain ⟨ha1, ha2⟩ := newModFold_other uid c1 (st.known_trades, []) hnotc1
  have hstep := newModStep_hit (c1.foldl newModStep (st.known_trades, [])) uid t_new t_old
    (ha1.trans hold)
  -- facts about the pass, per threshold branch
  have hkey : dictLookup (newModPass st.known_trades current).1 uid
        = some (if 1000 < |t_new.collateral - t_old.collateral| then t_new else t_old) ∧
      (newModPass st.known_trades current).2.filter (fun e => eventUid e == uid)
        = (if 1000 < |t_new.collateral - t_old.collateral| then
            [Event.update uid t_new (modDiffStr t_new.collateral t_old.collateral)]
          else []) := by
    obtain ⟨hb1, hb2⟩ := newModFold_other uid c2
      (newModStep (c1.foldl newModStep (st.known_trades, [])) (uid, t_new)) hnotc2
    rw [hnm]
    by_cases hcond : 1000 < |t_new.collateral - t_old.collateral|
    · constructor
      · rw [if_pos hcond, hb1, hstep, if_pos hcond]
        exact dictInsert_lookup_self _ uid t_new
      · rw [if_pos hcond, hb2, hstep, if_pos hcond]
        show ((c1.foldl newModStep (st.known_trades, [])).2
            ++ [Event.update uid t_new _]).filter (fun e => eventUid e == uid) = _
        rw [List.filter_append, ha2]
        simp [eventUid]
    · constructor
      · rw [if_neg hcond, hb1, hstep, if_neg hcond]
        exact ha1.trans hold
      · rw [if_neg hcond, hb2, hstep, if_neg hcond, ha2]
        simp
  -- the closed pass neither emits events about uid nor collects it
  have hclosed := closedFold_all_closed current
    (tickHistory (newModPass st.known_trades current).1 current hf)
    (newModPass st.known_trades current).1 ([], [], []) (by simp) (by simp)
  have huid_some : (dictLookup current uid).isSome = true := by rw [hnew]; rfl
  have hfilter2 : (processClosed (newModPass st.known_trades current).1 current
      (tickHistory (newModPass st.known_trades current).1 current hf)).1.filter
        (fun e => eventUid e == uid) = [] := by
    rw [List.filter_eq_nil_iff]
    intro e he
    intro heq
    have hne := hclosed.1 e he
    rw [beq_iff_eq] at heq
    rw [heq, hnew] at hne
    exact Bool.noConfusion hne
  have hnotin : (processClosed (newModPass st.known_trades current).1 current
      (tickHistory (newModPass st.known_trades current).1 current hf)).2.2.contains uid
        = false := by
    by_cases hmem : uid ∈ (processClosed (newModPass st.known_trades current).1 current
        (tickHistory (newModPass st.known_trades current).1 current hf)).2.2
    · have := hclosed.2 uid hmem
      rw [hnew] at this
      exact Bool.noConfusion this
    · simpa using hmem
  -- assemble
  rw [pollTick_notFirst st current hf hfr]
  by_cases hcond : 1000 < |t_new.collateral - t_old.collateral|
  · rw [if_pos hcond]
    constructor
    · show ((newModPass st.known_trades current).2 ++ _).filter (fun e => eventUid e == uid)
        = _
      rw [List.filter_append, hkey.2, hfilter2, if_pos hcond, List.append_nil]
    · show dictLookup ((newModPass st.known_trades current).1.filter _) uid = some t_new
      rw [dictLookup_filter_contains _ _ uid hnotin, hkey.1, if_pos hcond]
  · rw [if_neg hcond]
    constructor
    · show ((newModPass st.known_trades current).2 ++ _).filter (fun e => eventUid e == uid)
        = _
      rw [List.filter_append, hkey.2, hfilter2, if_neg hcond, List.append_nil]
    · show dictLookup ((newModPass st.known_trades current).1.filter _) uid = some t_old
      rw [dictLookup_filter_contains _ _ uid hnotin, hkey.1, if_neg hcond]

/-- Old and new samples for the C3 witness: collateral moved by +2,000,000
raw units (2.00 display units, above the 1000 dust threshold). -/
def tradeOldW : Trade :=
  { pairId := "1", pairFrom := "BTC", pairTo := "USD", index := 0,
    collateral := 100000000, notional := 1000000000,
    openPrice := 50000000000000000000000, leverage := 1000, isBuy := true }

def tradeNewW : Trade :=
  { pairId := "1", pairFrom := "BTC", pairTo := "USD", index := 0,
    collateral := 102000000, notional := 1000000000,
    openPrice := 50000000000000000000000, leverage := 1000, isBuy := true }

/-- C3 witness: a concrete tick where key "1-0" moves by +2,000,000 raw
units emits exactly one TRADE UPDATE event rendering "+2.00" and overwrites
the stored trade. -/
theorem C3_witness :
    (if 1000 < |tradeNewW.collateral - tradeOldW.collateral| then
       (pollTick { known_trades := [("1-0", tradeOldW)], first_run := false }
           (some [("1-0", tradeNewW)]) none).2.filter (fun e => eventUid e == "1-0")
           = [Event.update "1-0" tradeNewW
               (modDiffStr tradeNewW.collateral tradeOldW.collateral)] ∧
       dictLookup (pollTick { known_trades := [("1-0", tradeOldW)], first_run := false }
           (some [("1-0", tradeNewW)]) none).1.known_trades "1-0" = some tradeNewW
     else
       (pollTick { known_trades := [("1-0", tradeOldW)], first_run := false }
           (some [("1-0", tradeNewW)]) none).2.filter (fun e => eventUid e == "1-0") = [] ∧
       dictLookup (pollTick { known_trades := [("1-0", tradeOldW)], first_run := false }
           (some [("1-0", tradeNewW)]) none).1.known_trades "1-0" = some tradeOldW) ∧
    (∀ c : Int, modDiffStr (c + 2000000) c = "(+2.00 USDC)") :=
  C3_modified_dust_threshold
    { known_trades := [("1-0", tradeOldW)], first_run := false }
    [("1-0", tradeNewW)] none "1-0" tradeOldW tradeNewW rfl (by decide) (by decide)
    (by decide)

end OstiumBot
